import Mathlib

/-!
# Verification of the id90travel-hotels pipeline

Shallow embedding of `src/id90travel_hotels/main.py`, a linear
extract-transform-load script:

  robots.txt --(regex findall)--> sitemap URLs --(per sitemap: fetch, XML
  loc entries, filter, path-segment extraction)--> hotel records --> JSON.

Python `str` values are embedded as `List Char`.  The two regular
expressions of the source are compiled by hand into executable matchers;
`pathlib.Path(...).parts` is embedded following pathlib's documented POSIX
parsing (split on `/`, drop empty and `"."` components, keep a root part for
absolute paths).  HTTP responses are modelled as status/body pairs supplied
by an environment, and `xml.etree` parsing of a sitemap body is abstracted
to an `Option (List Str)` of `<loc>` texts in document order (`none` models
a parse failure).  Fallible steps return `Except`/`Option`.
-/

set_option autoImplicit false

namespace ID90

/-- Embedding of Python `str`. -/
abbrev Str := List Char

/-- The `Hotel` dataclass of the source: three string fields, declared in
the order `id`, `name`, `destination`. -/
structure Hotel where
  id : Str
  name : Str
  destination : Str
deriving DecidableEq, Repr

/-! ## pathlib embedding

`_parse_hotel_detail_url` uses `pathlib.Path(url).parts`.  On POSIX,
pathlib splits the string on `/`, keeps the components that are nonempty
and not `"."`, and prepends a root part for absolute paths (root `//` for
exactly two leading slashes, `/` otherwise). -/

/-- `str.split('/')`: split a character list at every `'/'`, keeping empty
pieces (so `"a//b"` gives `["a", "", "b"]`). -/
def splitSlash : Str → List Str
  | [] => [[]]
  | c :: rest =>
    if c = '/' then [] :: splitSlash rest
    else
      match splitSlash rest with
      | [] => [[c]]
      | piece :: pieces => (c :: piece) :: pieces

/-- pathlib keeps a component iff it is nonempty and not `"."`
(`if x and x != '.'` in pathlib's parser). -/
def partOk (c : Str) : Bool := decide (c ≠ [] ∧ c ≠ ['.'])

/-- `pathlib.PurePosixPath(s).parts`: the filtered components of
`splitSlash`, preceded by the root for absolute paths. -/
def pathParts (cs : Str) : List Str :=
  let comps := (splitSlash cs).filter partOk
  if cs.take 3 = ['/', '/', '/'] then ['/'] :: comps
  else if cs.take 2 = ['/', '/'] then ['/', '/'] :: comps
  else if cs.take 1 = ['/'] then ['/'] :: comps
  else comps

/-! ## Sitemap Processor: URL filter and field extraction -/

/-- The literal part of the `_is_hotel_detail_url` pattern
`^https://www\.id90travel\.com/hotels/details/.+$`. -/
def hotelDetailBase : Str := "https://www.id90travel.com/hotels/details/".data

/-- `_is_hotel_detail_url`: `re.match("^https://www\.id90travel\.com/hotels/details/.+$", url)`.
The anchored match succeeds iff the string starts with the literal base and
the remainder matches `.+$`: in Python's default regex mode `.` matches any
character except `'\n'`, and `$` matches at the end of the string or just
before one final `'\n'`.  So the remainder must be a nonempty run of
non-newline characters, optionally followed by a single trailing newline. -/
def isHotelDetailUrl (cs : Str) : Bool :=
  hotelDetailBase.isPrefixOf cs &&
    (let t := cs.drop hotelDetailBase.length
     let u := if t.getLast? = some '\n' then t.dropLast else t
     decide (u ≠ [] ∧ ∀ c ∈ u, c ≠ '\n'))

/-- `_parse_hotel_detail_url`: `parts[-1]`, `parts[-2]`, `parts[-3]` of
`Path(url).parts` become `id`, `name`, `destination`.  Python raises
`IndexError` when the parts list has fewer than three entries; that
exception is modelled as `none`. -/
def parseHotelDetailUrl (cs : Str) : Option Hotel :=
  match (pathParts cs).reverse with
  | i :: n :: d :: _ => some { id := i, name := n, destination := d }
  | _ => none

/-- The pure tail of `process_sitemap`, applied to the `<loc>` texts of one
sitemap in document order: keep those passing `_is_hotel_detail_url`, then
build a `Hotel` from each. -/
def processSitemapLocs (locs : List Str) : List (Option Hotel) :=
  let validUrls := locs.filter isHotelDetailUrl
  validUrls.map parseHotelDetailUrl

/-! ## Sitemap Locator: the regex scanner of `extract_sitemap_urls`

The pattern is
`https://www\.id90travel\.com/sitemaps/sitemap_hotel_details_?\d*\.xml`:
the 57-character literal base, an optional `'_'`, a possibly empty run of
digits, then the literal `.xml`.  `re.findall` scans the text left to
right, collecting non-overlapping matches, restarting after each match. -/

/-- The literal base of the sitemap pattern (57 characters). -/
def sitemapBase : Str := "https://www.id90travel.com/sitemaps/sitemap_hotel_details".data

/-- The literal `.xml` tail of the sitemap pattern. -/
def xmlTail : Str := ".xml".data

/-- Match `\d*\.xml` at the head of `cs`, returning the number of
characters consumed.  `\d*` is greedy; backtracking out of it is
impossible because `'.'` is not a digit, so the greedy take is exact. -/
def matchDigitsXml (cs : Str) : Option Nat :=
  let ds := cs.takeWhile Char.isDigit
  if xmlTail.isPrefixOf (cs.drop ds.length) then some (ds.length + 4) else none

/-- Match `_?\d*\.xml` at the head of `t` (the text after the literal
base), returning the total match length including the base.  `_?` greedily
consumes an underscore when one is present; if the rest then fails, the
regex engine retries without the underscore (that retry can never succeed
here, since `\d*\.xml` cannot start with `'_'`, but it is kept for
fidelity to the backtracking semantics). -/
def matchAfterBase : Str → Option Nat
  | [] => (matchDigitsXml []).map (fun n => sitemapBase.length + n)
  | c :: r =>
    if c = '_' then
      match matchDigitsXml r with
      | some n => some (sitemapBase.length + 1 + n)
      | none => (matchDigitsXml (c :: r)).map (fun n => sitemapBase.length + n)
    else (matchDigitsXml (c :: r)).map (fun n => sitemapBase.length + n)

/-- Match the whole sitemap pattern at the head of `cs`, returning the
length of the match. -/
def matchSitemapAt (cs : Str) : Option Nat :=
  if sitemapBase.isPrefixOf cs then matchAfterBase (cs.drop sitemapBase.length)
  else none

/-- The scanning loop of `re.findall`: `skip` counts characters still
inside the previous match.  At an unskipped position, a match of length
`n` is emitted and the next `n - 1` characters are skipped (non-overlapping
matches); otherwise scanning advances one character. -/
def findAllGo : Str → Nat → List Str
  | [], _ => []
  | _ :: rest, Nat.succ k => findAllGo rest k
  | c :: rest, 0 =>
    match matchSitemapAt (c :: rest) with
    | some n => (c :: rest).take n :: findAllGo rest (n - 1)
    | none => findAllGo rest 0

/-- `re.findall(pattern, text)` for the sitemap pattern. -/
def findAllSitemap (cs : Str) : List Str := findAllGo cs 0

/-- The Locator's contract as the spec words it: "the ordered list of
matches, in the order they appear in the text; duplicates are not
removed" — at every position of the text, in increasing order, the
substring matched there (if any). -/
def specMatches (cs : Str) : List Str :=
  (List.range cs.length).filterMap
    (fun p => (matchSitemapAt (cs.drop p)).map (fun n => (cs.drop p).take n))

/-! ## JSON values

`json.dump` / `json.load` are standard-library code; they are abstracted
as a tree of JSON values (dumping writes the tree as text, loading parses
it back; only the constructors this program produces are needed). -/

/-- A JSON value, as far as this program produces them. -/
inductive Json where
  | str (s : Str)
  | arr (elems : List Json)
  | obj (fields : List (Str × Json))

/-- `dataclasses.asdict(hotel)`: the field mapping in declaration order. -/
def hotelAsDict (h : Hotel) : List (Str × Json) :=
  [("id".data, Json.str h.id),
   ("name".data, Json.str h.name),
   ("destination".data, Json.str h.destination)]

/-- The serialization `main` performs: `[asdict(hotel) for hotel in hs]`
followed by `json.dump` of the list. -/
def serializeHotels (hs : List Hotel) : Json :=
  Json.arr (hs.map (fun h => Json.obj (hotelAsDict h)))

/-- Read one hotel object back out of a parsed JSON value. -/
def parseHotelJson : Json → Option Hotel
  | Json.obj [(k1, Json.str a), (k2, Json.str b), (k3, Json.str c)] =>
    if k1 = "id".data ∧ k2 = "name".data ∧ k3 = "destination".data then
      some { id := a, name := b, destination := c }
    else none
  | _ => none

/-- Read a list of hotel objects back out of parsed JSON array elements. -/
def parseHotelList : List Json → Option (List Hotel)
  | [] => some []
  | j :: rest => do
    let h ← parseHotelJson j
    let tl ← parseHotelList rest
    some (h :: tl)

/-- Read the whole output document back: an array of hotel objects. -/
def parseHotelsJson : Json → Option (List Hotel)
  | Json.arr es => parseHotelList es
  | _ => none

/-! ## HTTP layer and Pipeline Driver

The network is an environment: the robots.txt response, and one response
per sitemap URL.  `ET.fromstring` plus `findall('.//default:loc')` on a
sitemap body is abstracted to `locs? : Option (List Str)`: `none` models a
raised `ParseError` (malformed XML), `some locs` the `<loc>` element texts
in document order. -/

/-- An HTTP response: status code and body. -/
structure FetchResult (α : Type) where
  status : Nat
  body : α

/-- A fetched sitemap body, abstracted to its XML parse result. -/
structure SitemapBody where
  locs? : Option (List Str)

/-- The ways a run can terminate abnormally: `raise_for_status` on a
non-success response, `ET.ParseError` on malformed XML, `TypeError` from
`asdict` on a non-dataclass value. -/
inductive RunError where
  | httpStatus (code : Nat)
  | xmlParse
  | typeError
deriving DecidableEq, Repr

/-- httpx success statuses (2xx). -/
def isSuccessStatus (s : Nat) : Bool := 200 ≤ s && s < 300

/-- `Response.raise_for_status()`: error on any non-success status. -/
def raiseForStatus {α : Type} (r : FetchResult α) : Except RunError (FetchResult α) :=
  if isSuccessStatus r.status then Except.ok r else Except.error (RunError.httpStatus r.status)

/-- `extract_sitemap_urls`: fetch robots.txt, `raise_for_status`, then
`re.findall` on the body. -/
def extractSitemapUrls (robots : FetchResult Str) : Except RunError (List Str) := do
  let r ← raiseForStatus robots
  Except.ok (findAllSitemap r.body)

/-- `process_sitemap` for one sitemap response: `raise_for_status`, XML
parsing (abstracted), then filter and extraction on the `<loc>` texts. -/
def processSitemap (resp : FetchResult SitemapBody) : Except RunError (List (Option Hotel)) := do
  let r ← raiseForStatus resp
  match r.body.locs? with
  | none => Except.error RunError.xmlParse
  | some locs => Except.ok (processSitemapLocs locs)

/-- The Driver's loop: `hotels = []`, then for each sitemap URL in order,
`hotels.extend(process_sitemap(client, url))`; the first failure aborts. -/
def accumulateHotels (fetch : Str → FetchResult SitemapBody) : List Str → Except RunError (List (Option Hotel))
  | [] => Except.ok []
  | u :: rest => do
    let hs ← processSitemap (fetch u)
    let tl ← accumulateHotels fetch rest
    Except.ok (hs ++ tl)

/-- `[asdict(hotel) for hotel in hotels]`: Python's `asdict` raises
`TypeError` on a value that is not a dataclass instance (i.e. on `None`). -/
def dictsOf : List (Option Hotel) → Except RunError (List Json)
  | [] => Except.ok []
  | none :: _ => Except.error RunError.typeError
  | some h :: rest => do
    let tl ← dictsOf rest
    Except.ok (Json.obj (hotelAsDict h) :: tl)

/-- `main`: locate sitemaps, process each sequentially, convert to dicts,
dump as JSON.  The returned `Except.ok` value is the document written to
the output file; the write (`open(..., "w")` + `json.dump`) is the very
last step of the source, so on `Except.error` nothing has been written. -/
def mainRun (robots : FetchResult Str) (fetch : Str → FetchResult SitemapBody) :
    Except RunError Json := do
  let sitemapUrls ← extractSitemapUrls robots
  let hotels ← accumulateHotels fetch sitemapUrls
  let dicts ← dictsOf hotels
  Except.ok (Json.arr dicts)

/-! ## Lemmas about path splitting and the hotel-detail filter -/

theorem splitSlash_append_slash (a b : Str) (ha : '/' ∉ a) :
    splitSlash (a ++ '/' :: b) = a :: splitSlash b := by
  induction a with
  | nil => simp [splitSlash]
  | cons c cs ih =>
    have hc : c ≠ '/' := fun h => ha (h ▸ List.mem_cons_self c cs)
    have ih' := ih (fun h => ha (List.mem_cons_of_mem c h))
    simp only [List.cons_append, splitSlash, if_neg hc]
    rw [show cs.append ('/' :: b) = cs ++ '/' :: b from rfl, ih']

theorem splitSlash_no_slash (a : Str) (ha : '/' ∉ a) : splitSlash a = [a] := by
  induction a with
  | nil => rfl
  | cons c cs ih =>
    have hc : c ≠ '/' := fun h => ha (h ▸ List.mem_cons_self c cs)
    have ih' := ih (fun h => ha (List.mem_cons_of_mem c h))
    simp only [splitSlash, if_neg hc, ih']

theorem splitSlash_hotelBase (t : Str) :
    splitSlash (hotelDetailBase ++ t) =
      "https:".data :: [] :: "www.id90travel.com".data :: "hotels".data ::
        "details".data :: splitSlash t := by
  have e : hotelDetailBase ++ t =
      "https:".data ++ '/' :: (([] : Str) ++ '/' :: ("www.id90travel.com".data ++
        '/' :: ("hotels".data ++ '/' :: ("details".data ++ '/' :: t)))) := rfl
  rw [e, splitSlash_append_slash _ _ (by decide), splitSlash_append_slash _ _ (by decide),
    splitSlash_append_slash _ _ (by decide), splitSlash_append_slash _ _ (by decide),
    splitSlash_append_slash _ _ (by decide)]

theorem pathParts_hotelBase (t : Str) :
    pathParts (hotelDetailBase ++ t) =
      "https:".data :: "www.id90travel.com".data :: "hotels".data :: "details".data ::
        (splitSlash t).filter partOk := by
  have h3 : ¬((hotelDetailBase ++ t).take 3 = ['/', '/', '/']) := by
    rw [List.take_append_of_le_length (by decide)]; decide
  have h2 : ¬((hotelDetailBase ++ t).take 2 = ['/', '/']) := by
    rw [List.take_append_of_le_length (by decide)]; decide
  have h1 : ¬((hotelDetailBase ++ t).take 1 = ['/']) := by
    rw [List.take_append_of_le_length (by decide)]; decide
  rw [pathParts]
  simp only [if_neg h3, if_neg h2, if_neg h1]
  rw [splitSlash_hotelBase]
  rw [List.filter_cons, if_pos (by decide), List.filter_cons, if_neg (by decide),
    List.filter_cons, if_pos (by decide), List.filter_cons, if_pos (by decide),
    List.filter_cons, if_pos (by decide)]

theorem hotel_url_decomp {cs : Str} (h : isHotelDetailUrl cs = true) :
    ∃ t, cs = hotelDetailBase ++ t := by
  have h' := h
  simp only [isHotelDetailUrl, Bool.and_eq_true, List.isPrefixOf_iff_prefix] at h'
  obtain ⟨⟨t, ht⟩, -⟩ := h'
  exact ⟨t, ht.symm⟩

theorem pathParts_length_of_hotel {cs : Str} (h : isHotelDetailUrl cs = true) :
    4 ≤ (pathParts cs).length := by
  obtain ⟨t, rfl⟩ := hotel_url_decomp h
  rw [pathParts_hotelBase]
  simp only [List.length_cons]
  omega

theorem parseHotelDetailUrl_isSome_of_len {cs : Str} (h : 3 ≤ (pathParts cs).length) :
    (parseHotelDetailUrl cs).isSome = true := by
  have h' : 3 ≤ (pathParts cs).reverse.length := by simpa using h
  rw [parseHotelDetailUrl]
  rcases hr : (pathParts cs).reverse with - | ⟨i, - | ⟨n, - | ⟨d, rest⟩⟩⟩ <;>
    rw [hr] at h' <;> simp_all

theorem getLast?_ne_newline {u : Str} (hnl : ∀ c ∈ u, c ≠ '\n') :
    ¬(u.getLast? = some '\n') := by
  intro h
  rcases u with - | ⟨c, cs⟩
  · simp at h
  · have hne : (c :: cs) ≠ ([] : Str) := by simp
    rw [List.getLast?_eq_getLast _ hne] at h
    exact hnl _ (List.getLast_mem hne) (Option.some.inj h)

/-- Regex semantics of `^<base>.+$`, written out as the spec amendment
words it: the string is the base, then a nonempty run of non-newline
characters, then an optional single trailing newline. -/
def SurvivesFilter (s : Str) : Prop :=
  ∃ u v, s = hotelDetailBase ++ u ++ v ∧ u ≠ [] ∧ (∀ c ∈ u, c ≠ '\n') ∧
    (v = [] ∨ v = ['\n'])

theorem isHotelDetailUrl_iff (s : Str) :
    isHotelDetailUrl s = true ↔ SurvivesFilter s := by
  constructor
  · intro h
    obtain ⟨t, rfl⟩ := hotel_url_decomp h
    simp only [isHotelDetailUrl, Bool.and_eq_true, List.isPrefixOf_iff_prefix,
      List.drop_left, decide_eq_true_eq] at h
    obtain ⟨-, hcond⟩ := h
    by_cases hlast : t.getLast? = some '\n'
    · rw [if_pos hlast] at hcond
      have hne : t ≠ [] := by rintro rfl; simp at hlast
      have hget : t.getLast hne = '\n' := by
        have := List.getLast?_eq_getLast t hne
        rw [hlast] at this
        exact (Option.some.inj this).symm
      refine ⟨t.dropLast, ['\n'], ?_, hcond.1, hcond.2, Or.inr rfl⟩
      rw [List.append_assoc]
      congr 1
      rw [← hget, List.dropLast_concat_getLast hne]
    · rw [if_neg hlast] at hcond
      exact ⟨t, [], by simp, hcond.1, hcond.2, Or.inl rfl⟩
  · rintro ⟨u, v, rfl, hu, hnl, hv⟩
    simp only [isHotelDetailUrl, Bool.and_eq_true, List.isPrefixOf_iff_prefix,
      List.append_assoc, List.drop_left, decide_eq_true_eq]
    refine ⟨List.prefix_append _ _, ?_⟩
    rcases hv with rfl | rfl
    · rw [List.append_nil, if_neg (getLast?_ne_newline hnl)]
      exact ⟨hu, hnl⟩
    · rw [List.getLast?_concat, if_pos rfl, List.dropLast_concat]
      exact ⟨hu, hnl⟩

instance : DecidablePred SurvivesFilter := fun s =>
  decidable_of_iff _ (isHotelDetailUrl_iff s)

/-! ## Lemmas about the sitemap pattern matcher -/

theorem drop_length_takeWhile (p : Char → Bool) (cs : Str) :
    cs.drop (cs.takeWhile p).length = cs.dropWhile p := by
  induction cs with
  | nil => rfl
  | cons c cs ih =>
    by_cases h : p c <;> simp [List.takeWhile_cons, List.dropWhile_cons, h, ih]

theorem matchDigitsXml_some {cs : Str} {n : Nat} (h : matchDigitsXml cs = some n) :
    ∃ ds rest, (∀ c ∈ ds, c.isDigit = true) ∧ cs = ds ++ xmlTail ++ rest ∧
      n = ds.length + 4 := by
  rw [matchDigitsXml] at h
  by_cases hp : xmlTail.isPrefixOf (cs.drop (cs.takeWhile Char.isDigit).length)
  · rw [if_pos hp, Option.some.injEq] at h
    rw [List.isPrefixOf_iff_prefix] at hp
    obtain ⟨rest, hrest⟩ := hp
    refine ⟨cs.takeWhile Char.isDigit, rest, fun c hc => List.mem_takeWhile_imp hc, ?_, h.symm⟩
    rw [List.append_assoc, hrest, drop_length_takeWhile, List.takeWhile_append_dropWhile]
  · rw [if_neg hp] at h
    exact absurd h (by simp)

theorem matchDigitsXml_of_digits {ds : Str} (rest : Str) (h : ∀ c ∈ ds, c.isDigit = true) :
    matchDigitsXml (ds ++ xmlTail ++ rest) = some (ds.length + 4) := by
  have htw : (ds ++ xmlTail ++ rest).takeWhile Char.isDigit = ds := by
    rw [List.append_assoc, List.takeWhile_append_of_pos h]
    have : (xmlTail ++ rest).takeWhile Char.isDigit = [] := by
      rw [show xmlTail ++ rest = '.' :: ("xml".data ++ rest) from rfl]
      simp [List.takeWhile_cons]
    rw [this, List.append_nil]
  rw [matchDigitsXml, htw, List.append_assoc, List.drop_left, if_pos]
  rw [List.isPrefixOf_iff_prefix]
  exact List.prefix_append _ _

/-- The shape of a string accepted between the literal base and `.xml`:
an optional underscore followed by a run of digits (`_?\d*`). -/
def MidOk (mid : Str) : Prop :=
  ∃ u ds, (u = [] ∨ u = ['_']) ∧ (∀ c ∈ ds, c.isDigit = true) ∧ mid = u ++ ds

theorem matchDigitsXml_underscore (r : Str) : matchDigitsXml ('_' :: r) = none := by
  rw [matchDigitsXml]
  rw [show ('_' :: r).takeWhile Char.isDigit = [] by simp [List.takeWhile_cons]]
  rw [if_neg]
  simp [xmlTail, List.isPrefixOf]

theorem matchAfterBase_some {t : Str} {n : Nat} (h : matchAfterBase t = some n) :
    ∃ mid rest, MidOk mid ∧ t = mid ++ xmlTail ++ rest ∧
      n = sitemapBase.length + mid.length + 4 := by
  rcases t with - | ⟨c, r⟩
  · rw [matchAfterBase, show matchDigitsXml [] = none from rfl] at h
    simp at h
  · rw [matchAfterBase] at h
    by_cases hc : c = '_'
    · subst hc
      rw [if_pos rfl] at h
      rcases hm : matchDigitsXml r with - | n0
      · rw [hm, matchDigitsXml_underscore] at h
        simp at h
      · rw [hm, Option.some.injEq] at h
        obtain ⟨ds, rest, hds, hr, hn0⟩ := matchDigitsXml_some hm
        refine ⟨'_' :: ds, rest, ⟨['_'], ds, Or.inr rfl, hds, rfl⟩, ?_, ?_⟩
        · rw [hr]; rfl
        · rw [← h, hn0]; simp [List.length_cons]; omega
    · rw [if_neg hc] at h
      obtain ⟨n0, hn0, hn⟩ := Option.map_eq_some'.mp h
      obtain ⟨ds, rest, hds, hr, hn0'⟩ := matchDigitsXml_some hn0
      exact ⟨ds, rest, ⟨[], ds, Or.inl rfl, hds, rfl⟩, hr, by omega⟩

theorem matchAfterBase_of_midOk {mid : Str} (rest : Str) (h : MidOk mid) :
    matchAfterBase (mid ++ xmlTail ++ rest) =
      some (sitemapBase.length + mid.length + 4) := by
  obtain ⟨u, ds, hu, hds, rfl⟩ := h
  rcases hu with rfl | rfl
  · rw [List.nil_append]
    rcases hds0 : ds with - | ⟨d, ds'⟩
    · rw [show (([] : Str) ++ xmlTail ++ rest) = '.' :: ("xml".data ++ rest) from rfl,
        matchAfterBase, if_neg (by decide)]
      rw [show ('.' :: ("xml".data ++ rest)) = ([] : Str) ++ xmlTail ++ rest from rfl,
        matchDigitsXml_of_digits rest (by simp)]
      simp
    · subst hds0
      have hd : d.isDigit = true := hds d (List.mem_cons_self d ds')
      have hd' : d ≠ '_' := fun he => by rw [he] at hd; exact absurd hd (by decide)
      rw [show ((d :: ds') ++ xmlTail ++ rest) = d :: (ds' ++ xmlTail ++ rest) from by simp,
        matchAfterBase, if_neg hd']
      rw [show (d :: (ds' ++ xmlTail ++ rest)) = (d :: ds') ++ xmlTail ++ rest from by simp,
        matchDigitsXml_of_digits rest hds]
      simp; omega
  · rw [show ((['_'] ++ ds) ++ xmlTail ++ rest) = '_' :: (ds ++ xmlTail ++ rest) from by simp,
      matchAfterBase, if_pos rfl, matchDigitsXml_of_digits rest hds]
    simp; omega

theorem matchSitemapAt_some_iff (cs : Str) (n : Nat) :
    matchSitemapAt cs = some n ↔
      ∃ mid rest, MidOk mid ∧ cs = sitemapBase ++ mid ++ xmlTail ++ rest ∧
        n = sitemapBase.length + mid.length + 4 := by
  constructor
  · intro h
    rw [matchSitemapAt] at h
    by_cases hp : sitemapBase.isPrefixOf cs
    · rw [if_pos hp] at h
      obtain ⟨t, ht⟩ := List.isPrefixOf_iff_prefix.mp hp
      obtain ⟨mid, rest, hmid, htdecomp, hn⟩ := matchAfterBase_some (t := cs.drop sitemapBase.length) h
      refine ⟨mid, rest, hmid, ?_, hn⟩
      rw [← ht, List.drop_left] at htdecomp
      rw [← ht, htdecomp]
      simp [List.append_assoc]
    · rw [if_neg hp] at h
      exact absurd h (by simp)
  · rintro ⟨mid, rest, hmid, rfl, rfl⟩
    have hpre : sitemapBase.isPrefixOf (sitemapBase ++ mid ++ xmlTail ++ rest) = true := by
      rw [List.isPrefixOf_iff_prefix]
      simp only [List.append_assoc]
      exact List.prefix_append _ _
    rw [matchSitemapAt, if_pos hpre,
      show (sitemapBase ++ mid ++ xmlTail ++ rest).drop sitemapBase.length =
        mid ++ xmlTail ++ rest from by simp only [List.append_assoc, List.drop_left],
      matchAfterBase_of_midOk rest hmid]

theorem matchSitemapAt_base {cs : Str} {n : Nat} (h : matchSitemapAt cs = some n) :
    sitemapBase.isPrefixOf cs = true := by
  rw [matchSitemapAt] at h
  by_cases hp : sitemapBase.isPrefixOf cs
  · exact hp
  · rw [if_neg hp] at h; exact absurd h (by simp)

theorem matchSitemapAt_pos {cs : Str} {n : Nat} (h : matchSitemapAt cs = some n) :
    0 < n := by
  obtain ⟨mid, rest, -, -, rfl⟩ := (matchSitemapAt_some_iff cs n).mp h
  omega

theorem midOk_mem {mid : Str} (h : MidOk mid) {c : Char} (hc : c ∈ mid) :
    c = '_' ∨ c.isDigit = true := by
  obtain ⟨u, ds, hu, hds, rfl⟩ := h
  rcases List.mem_append.mp hc with hcu | hcd
  · rcases hu with rfl | rfl
    · simp at hcu
    · simp at hcu; exact Or.inl hcu
  · exact Or.inr (hds c hcd)

/-- No sitemap-pattern match can begin strictly inside another match: the
first two characters of any match are `'h'`, `'t'`, and no interior
position of a match carries that pair. -/
theorem matchSitemapAt_no_overlap {cs : Str} {n : Nat} (h : matchSitemapAt cs = some n) :
    ∀ d, 0 < d → d < n → matchSitemapAt (cs.drop d) = none := by
  obtain ⟨mid, rest, hmid, rfl, rfl⟩ := (matchSitemapAt_some_iff cs n).mp h
  intro d hd0 hdn
  rcases hcontra : matchSitemapAt ((sitemapBase ++ mid ++ xmlTail ++ rest).drop d) with - | m
  · rfl
  exfalso
  have hpre := matchSitemapAt_base hcontra
  rw [List.isPrefixOf_iff_prefix] at hpre
  obtain ⟨t2, ht2⟩ := hpre
  set cs := sitemapBase ++ mid ++ xmlTail ++ rest with hcs
  have hB : sitemapBase.length = 57 := by decide
  have hX : xmlTail.length = 4 := by decide
  have hget : ∀ j : Nat, j < sitemapBase.length → cs[d + j]? = sitemapBase[j]? := by
    intro j hj
    have h1 := congrArg (fun l : Str => l[j]?) ht2
    simp only at h1
    rw [List.getElem?_append_left hj, List.getElem?_drop] at h1
    exact h1.symm
  have hh : cs[d]? = some 'h' := by
    have h0 := hget 0 (by omega)
    rw [Nat.add_zero] at h0
    rw [h0]; decide
  have hcsm : cs = sitemapBase ++ (mid ++ (xmlTail ++ rest)) := by
    simp [hcs, List.append_assoc]
  rcases Nat.lt_or_ge d 56 with hd56 | hd56
  · -- interior of the base, with the next character also in the base
    have ht : cs[d + 1]? = sitemapBase[1]? := hget 1 (by omega)
    have hh' : sitemapBase[d]? = some 'h' := by
      rw [hcsm, List.getElem?_append_left (by omega)] at hh
      exact hh
    have ht' : sitemapBase[d + 1]? = sitemapBase[1]? := by
      rw [hcsm, List.getElem?_append_left (by omega)] at ht
      exact ht
    have hfact : ∀ e : Nat, e < 56 → 0 < e →
        ¬(sitemapBase[e]? = some 'h' ∧ sitemapBase[e + 1]? = sitemapBase[1]?) := by decide
    exact hfact d hd56 hd0 ⟨hh', ht'⟩
  rcases Nat.lt_or_ge d 57 with hd57 | hd57
  · -- d = 56: the last character of the base is 's', not 'h'
    have hd' : d = 56 := by omega
    subst hd'
    have hh' : sitemapBase[56]? = some 'h' := by
      rw [hcsm, List.getElem?_append_left (by omega)] at hh
      exact hh
    exact absurd hh' (by decide)
  rcases Nat.lt_or_ge d (57 + mid.length) with hdm | hdm
  · -- interior of `mid`: characters are '_' or digits, never 'h'
    have hh' : mid[d - sitemapBase.length]? = some 'h' := by
      rw [hcsm, List.getElem?_append_right (by omega)] at hh
      rwa [List.getElem?_append_left (by omega)] at hh
    have : 'h' ∈ mid := List.getElem?_mem hh'
    rcases midOk_mem hmid this with h1 | h1
    · exact absurd h1 (by decide)
    · exact absurd h1 (by decide)
  · -- interior of the ".xml" tail: '.', 'x', 'm', 'l' are never 'h'
    have hh' : xmlTail[d - sitemapBase.length - mid.length]? = some 'h' := by
      rw [hcsm, List.getElem?_append_right (by omega)] at hh
      rw [List.getElem?_append_right (by omega)] at hh
      rwa [List.getElem?_append_left (by omega)] at hh
    have : 'h' ∈ xmlTail := List.getElem?_mem hh'
    have hxml : ∀ c ∈ xmlTail, c ≠ 'h' := by decide
    exact hxml 'h' this rfl

theorem specMatches_cons (c : Char) (rest : Str) :
    specMatches (c :: rest) =
      (match matchSitemapAt (c :: rest) with
       | some n => [(c :: rest).take n]
       | none => []) ++ specMatches rest := by
  rw [specMatches, List.length_cons, List.range_succ_eq_map, List.filterMap_cons,
    List.filterMap_map]
  have hfun : ((fun p => (matchSitemapAt ((c :: rest).drop p)).map
        (fun n => ((c :: rest).drop p).take n)) ∘ Nat.succ) =
      (fun p => (matchSitemapAt (rest.drop p)).map (fun n => (rest.drop p).take n)) := by
    funext p
    simp [Function.comp, List.drop_succ_cons]
  rw [hfun]
  rcases hm : matchSitemapAt (c :: rest) with - | n <;>
    simp [hm, specMatches, List.drop_zero]

theorem specMatches_drop_of_none (k : Nat) :
    ∀ cs : Str, (∀ d, d < k → matchSitemapAt (cs.drop d) = none) →
      specMatches cs = specMatches (cs.drop k) := by
  induction k with
  | zero => intro cs _; rw [List.drop_zero]
  | succ k ih =>
    intro cs h
    rcases cs with - | ⟨c, rest⟩
    · rw [List.drop_nil]
    · have h0 : matchSitemapAt (c :: rest) = none := by
        have := h 0 (Nat.succ_pos k)
        rwa [List.drop_zero] at this
      rw [specMatches_cons, h0, List.nil_append, List.drop_succ_cons]
      exact ih rest (fun d hd => by
        have := h (d + 1) (by omega)
        rwa [List.drop_succ_cons] at this)

theorem findAllGo_skip (cs : Str) : ∀ k, findAllGo cs k = findAllGo (cs.drop k) 0 := by
  induction cs with
  | nil => intro k; rw [List.drop_nil]; cases k <;> rfl
  | cons c rest ih =>
    intro k
    cases k with
    | zero => rw [List.drop_zero]
    | succ k => rw [findAllGo, List.drop_succ_cons, ih k]

theorem findAll_eq_spec_aux (N : Nat) :
    ∀ cs : Str, cs.length ≤ N → findAllSitemap cs = specMatches cs := by
  induction N with
  | zero =>
    intro cs h
    rw [List.eq_nil_of_length_eq_zero (Nat.le_zero.mp h)]
    rfl
  | succ N ih =>
    intro cs hlen
    rcases cs with - | ⟨c, rest⟩
    · rfl
    · rcases hm : matchSitemapAt (c :: rest) with - | n
      · rw [findAllSitemap, findAllGo, hm, specMatches_cons, hm, List.nil_append]
        exact ih rest (by simpa using Nat.le_of_succ_le_succ hlen)
      · have hpos : 0 < n := matchSitemapAt_pos hm
        rw [findAllSitemap, findAllGo, hm, specMatches_cons, hm]
        show (c :: rest).take n :: findAllGo rest (n - 1) =
          [(c :: rest).take n] ++ specMatches rest
        rw [List.singleton_append]
        congr 1
        have hdrop_eq : rest.drop (n - 1) = (c :: rest).drop n := by
          rw [← List.drop_succ_cons (n := n - 1) (a := c), show n - 1 + 1 = n from by omega]
        have hdrop : ((c :: rest).drop n).length ≤ N := by
          rw [List.length_drop]
          simp only [List.length_cons]
          simp only [List.length_cons] at hlen
          omega
        rw [findAllGo_skip rest (n - 1), hdrop_eq,
          show findAllGo ((c :: rest).drop n) 0 = findAllSitemap ((c :: rest).drop n)
            from rfl,
          ih _ hdrop]
        have hnone : ∀ d, d < n - 1 → matchSitemapAt (rest.drop d) = none := by
          intro d hd
          have := matchSitemapAt_no_overlap hm (d + 1) (by omega) (by omega)
          rwa [List.drop_succ_cons] at this
        rw [specMatches_drop_of_none (n - 1) rest hnone, hdrop_eq]

/-! ## Lemmas about the Driver -/

theorem okBind {ε α β : Type} (a : α) (f : α → Except ε β) :
    (Except.ok a >>= f) = f a := rfl

theorem errorBind {ε α β : Type} (e : ε) (f : α → Except ε β) :
    (Except.error e >>= f) = (Except.error e : Except ε β) := rfl

theorem raiseForStatus_ok {α : Type} (r : FetchResult α) (h : isSuccessStatus r.status = true) :
    raiseForStatus r = Except.ok r := by
  rw [raiseForStatus, if_pos h]

theorem raiseForStatus_error {α : Type} (r : FetchResult α)
    (h : isSuccessStatus r.status = false) :
    raiseForStatus r = Except.error (RunError.httpStatus r.status) := by
  rw [raiseForStatus, if_neg (by simp [h])]

theorem extractSitemapUrls_ok (robots : FetchResult Str)
    (h : isSuccessStatus robots.status = true) :
    extractSitemapUrls robots = Except.ok (findAllSitemap robots.body) := by
  rw [extractSitemapUrls, raiseForStatus_ok robots h, okBind]

theorem processSitemap_ok (resp : FetchResult SitemapBody) (locs : List Str)
    (h1 : isSuccessStatus resp.status = true) (h2 : resp.body.locs? = some locs) :
    processSitemap resp = Except.ok (processSitemapLocs locs) := by
  rw [processSitemap, raiseForStatus_ok resp h1, okBind, h2]

theorem processSitemap_error_status (resp : FetchResult SitemapBody)
    (h : isSuccessStatus resp.status = false) :
    processSitemap resp = Except.error (RunError.httpStatus resp.status) := by
  rw [processSitemap, raiseForStatus_error resp h, errorBind]

theorem processSitemap_ok_inv {resp : FetchResult SitemapBody} {l : List (Option Hotel)}
    (h : processSitemap resp = Except.ok l) :
    isSuccessStatus resp.status = true ∧ resp.body.locs?.isSome = true := by
  rcases hs : isSuccessStatus resp.status with - | -
  · rw [processSitemap_error_status resp hs] at h
    exact absurd h (by simp)
  · refine ⟨rfl, ?_⟩
    rcases hl : resp.body.locs? with - | locs
    · rw [processSitemap, raiseForStatus_ok resp hs, okBind, hl] at h
      exact absurd h (by simp)
    · rfl

theorem accumulateHotels_flatMap (fetch : Str → FetchResult SitemapBody)
    (res : Str → List (Option Hotel)) :
    ∀ urls : List Str, (∀ u ∈ urls, processSitemap (fetch u) = Except.ok (res u)) →
      accumulateHotels fetch urls = Except.ok (urls.flatMap res) := by
  intro urls
  induction urls with
  | nil => intro _; rfl
  | cons u rest ih =>
    intro h
    rw [accumulateHotels, h u (List.mem_cons_self u rest), okBind,
      ih (fun v hv => h v (List.mem_cons_of_mem u hv)), okBind, List.flatMap_cons]

theorem accumulateHotels_error (fetch : Str → FetchResult SitemapBody) :
    ∀ (urls : List Str) (u : Str), u ∈ urls →
      (∃ e, processSitemap (fetch u) = Except.error e) →
      ∃ e, accumulateHotels fetch urls = Except.error e := by
  intro urls
  induction urls with
  | nil => intro u hu; exact absurd hu (List.not_mem_nil u)
  | cons v rest ih =>
    intro u hu ⟨e, he⟩
    rcases hv : processSitemap (fetch v) with ev | lv
    · exact ⟨ev, by rw [accumulateHotels, hv, errorBind]⟩
    · rcases List.mem_cons.mp hu with rfl | hu'
      · rw [hv] at he
        exact absurd he (by simp)
      · obtain ⟨e', he'⟩ := ih u hu' ⟨e, he⟩
        exact ⟨e', by rw [accumulateHotels, hv, okBind, he', errorBind]⟩

theorem accumulateHotels_ok_inv (fetch : Str → FetchResult SitemapBody) :
    ∀ (urls : List Str) (l : List (Option Hotel)),
      accumulateHotels fetch urls = Except.ok l →
      ∀ u ∈ urls, isSuccessStatus (fetch u).status = true ∧
        (fetch u).body.locs?.isSome = true := by
  intro urls
  induction urls with
  | nil => intro l _ u hu; exact absurd hu (List.not_mem_nil u)
  | cons v rest ih =>
    intro l hl u hu
    rcases hv : processSitemap (fetch v) with ev | lv
    · rw [accumulateHotels, hv, errorBind] at hl
      exact absurd hl (by simp)
    · rw [accumulateHotels, hv, okBind] at hl
      rcases hrest : accumulateHotels fetch rest with er | lr
      · rw [hrest, errorBind] at hl
        exact absurd hl (by simp)
      · rcases List.mem_cons.mp hu with rfl | hu'
        · exact processSitemap_ok_inv hv
        · exact ih lr hrest u hu'

/-! ## Spec-side characterizations used by the claims -/

/-- The sitemap-URL shape asserted by the claim: the base name either with
no suffix at all, or with an underscore followed by a (nonempty) numeric
suffix, then `.xml`. -/
def sitemapSpecForm (s : Str) : Prop :=
  s = sitemapBase ++ xmlTail ∨
    ∃ ds : Str, ds ≠ [] ∧ (∀ c ∈ ds, c.isDigit = true) ∧
      s = sitemapBase ++ '_' :: (ds ++ xmlTail)

/-! ## Concrete inputs for witnesses -/

/-- The hotel detail URL used as the spec's worked example. -/
def parisUrl : Str := "https://www.id90travel.com/hotels/details/Paris/Grand-Hotel/12345".data

/-- The record the spec says `parisUrl` produces. -/
def parisHotel : Hotel :=
  { id := "12345".data, name := "Grand-Hotel".data, destination := "Paris".data }

/-- A robots.txt response advertising one hotel-detail sitemap. -/
def robotsOneSitemap : FetchResult Str :=
  ⟨200, "Sitemap: https://www.id90travel.com/sitemaps/sitemap_hotel_details.xml".data⟩

/-- A robots.txt response with no sitemap URL in the body. -/
def robotsNoSitemaps : FetchResult Str := ⟨200, "User-agent: *".data⟩

/-- A failing robots.txt fetch (service unavailable). -/
def robotsDown : FetchResult Str := ⟨503, []⟩

/-- A fetch environment whose every sitemap parses to a single Paris loc. -/
def parisFetch : Str → FetchResult SitemapBody := fun _ => ⟨200, ⟨some [parisUrl]⟩⟩

/-- A fetch environment whose every sitemap parses to no locs. -/
def emptyFetch : Str → FetchResult SitemapBody := fun _ => ⟨200, ⟨some []⟩⟩

/-! ## Claims -/

/-- C1: for every hotel detail URL of the form
`https://www.id90travel.com/hotels/details/<destination>/<name>/<id>`
(each segment a genuine path segment: nonempty, slash-free, and not the
pathlib-elided `"."`), the Processor's extraction takes the last three
path segments in reverse order as `id`, `name`, `destination`. -/
theorem hotel_detail_extraction (dest nm idf : Str)
    (hd1 : '/' ∉ dest) (hd2 : dest ≠ []) (hd3 : dest ≠ ['.'])
    (hn1 : '/' ∉ nm) (hn2 : nm ≠ []) (hn3 : nm ≠ ['.'])
    (hi1 : '/' ∉ idf) (hi2 : idf ≠ []) (hi3 : idf ≠ ['.']) :
    parseHotelDetailUrl (hotelDetailBase ++ dest ++ '/' :: nm ++ '/' :: idf) =
      some { id := idf, name := nm, destination := dest } := by
  have hassoc : hotelDetailBase ++ dest ++ '/' :: nm ++ '/' :: idf =
      hotelDetailBase ++ (dest ++ '/' :: (nm ++ '/' :: idf)) := by
    simp [List.append_assoc]
  rw [parseHotelDetailUrl, hassoc, pathParts_hotelBase,
    splitSlash_append_slash _ _ hd1, splitSlash_append_slash _ _ hn1,
    splitSlash_no_slash _ hi1,
    List.filter_cons, if_pos (by simp [partOk, hd2, hd3]),
    List.filter_cons, if_pos (by simp [partOk, hn2, hn3]),
    List.filter_cons, if_pos (by simp [partOk, hi2, hi3]),
    List.filter_nil]
  simp

/-- Witness for C1: the spec's worked example
`https://www.id90travel.com/hotels/details/Paris/Grand-Hotel/12345`
yields `{id: "12345", name: "Grand-Hotel", destination: "Paris"}`. -/
theorem hotel_detail_extraction_witness :
    parseHotelDetailUrl parisUrl = some parisHotel := by
  have h := hotel_detail_extraction "Paris".data "Grand-Hotel".data "12345".data
    (by decide) (by decide) (by decide) (by decide) (by decide) (by decide)
    (by decide) (by decide) (by decide)
  rw [show parisUrl = hotelDetailBase ++ "Paris".data ++ '/' :: "Grand-Hotel".data ++
    '/' :: "12345".data from rfl]
  exact h

/-- C9: every URL accepted by the hotel-detail filter splits into at least
four path components (the accepted literal base alone contributes four),
so the `parts[-1]`, `parts[-2]`, `parts[-3]` accesses never raise: record
construction is total over filtered URLs. -/
theorem filtered_url_extraction_total {url : Str} (h : isHotelDetailUrl url = true) :
    4 ≤ (pathParts url).length ∧ (parseHotelDetailUrl url).isSome = true :=
  ⟨pathParts_length_of_hotel h,
    parseHotelDetailUrl_isSome_of_len (le_trans (by omega) (pathParts_length_of_hotel h))⟩

/-- Witness for C9 at the spec's worked example URL. -/
theorem filtered_url_extraction_total_witness :
    4 ≤ (pathParts parisUrl).length ∧ (parseHotelDetailUrl parisUrl).isSome = true :=
  filtered_url_extraction_total (by decide)

/-- C10: although `process_sitemap` is annotated `List[Optional[Hotel]]`,
every element of the list it returns is an actual `Hotel`; none is ever
absent. -/
theorem processSitemap_elements_present (locs : List Str) (x : Option Hotel)
    (hx : x ∈ processSitemapLocs locs) : ∃ h, x = some h := by
  rw [processSitemapLocs] at hx
  obtain ⟨url, hurl, hparse⟩ := List.mem_map.mp hx
  have hvalid : isHotelDetailUrl url = true := List.of_mem_filter hurl
  have hsome := parseHotelDetailUrl_isSome_of_len
    (le_trans (by omega) (pathParts_length_of_hotel hvalid))
  rw [hparse] at hsome
  exact Option.isSome_iff_exists.mp hsome

/-- Witness for C10: a one-loc sitemap produces a present element. -/
theorem processSitemap_elements_present_witness :
    ∃ h, (some parisHotel : Option Hotel) = some h :=
  processSitemap_elements_present [parisUrl] (some parisHotel) (by decide)

/-- C2 counterexample: the `<loc>` text equal to the base path itself
starts with the base path, yet the filter drops it (the regex requires at
least one character after the base), so "exactly those entries that start
with the base survive" is false. -/
theorem loc_equal_to_base_dropped :
    hotelDetailBase.isPrefixOf hotelDetailBase = true ∧
    isHotelDetailUrl hotelDetailBase = false ∧
    processSitemapLocs [hotelDetailBase] = [] := by decide

/-- C2 (amended): exactly those `<loc>` entries survive the Processor's
filtering that consist of the base path followed by a nonempty run of
non-newline characters, optionally terminated by one final newline; each
survivor is passed to the extraction, in document order. -/
theorem processSitemap_survivor_characterization (locs : List Str) :
    processSitemapLocs locs =
      (locs.filter (fun s => decide (SurvivesFilter s))).map parseHotelDetailUrl := by
  rw [processSitemapLocs]
  have hf : locs.filter isHotelDetailUrl =
      locs.filter (fun s => decide (SurvivesFilter s)) := by
    apply List.filter_congr
    intro s _
    by_cases hs' : SurvivesFilter s
    · rw [(isHotelDetailUrl_iff s).mpr hs', decide_eq_true hs']
    · have h1 : isHotelDetailUrl s = false := by
        rcases Bool.eq_false_or_eq_true (isHotelDetailUrl s) with hb | hb
        · exact absurd ((isHotelDetailUrl_iff s).mp hb) hs'
        · exact hb
      rw [h1, decide_eq_false hs']
  rw [hf]

/-- C3: the Locator returns exactly the substrings of the text matched by
the sitemap pattern, in order of first appearance, duplicates preserved:
`re.findall` agrees with the position-by-position match list. -/
theorem locator_returns_ordered_matches (cs : Str) :
    findAllSitemap cs = specMatches cs :=
  findAll_eq_spec_aux cs.length cs (le_refl _)

/-- C6 counterexample: the base name followed by a bare underscore and
`.xml` (no digits at all) fully matches the Locator's pattern, but is not
of the claimed form `sitemap_hotel_details[_<n>].xml`. -/
theorem underscore_without_digits_matches :
    matchSitemapAt (sitemapBase ++ '_' :: xmlTail) =
      some (sitemapBase ++ '_' :: xmlTail).length ∧
    ¬sitemapSpecForm (sitemapBase ++ '_' :: xmlTail) := by
  constructor
  · decide
  · rintro (h | ⟨ds, hne, -, h⟩)
    · have h1 := List.append_cancel_left h
      have h2 := congrArg List.length h1
      simp at h2
    · have h1 := List.append_cancel_left h
      have h2 : xmlTail = ds ++ xmlTail := by simpa using h1
      have h3 := congrArg List.length h2
      rw [List.length_append] at h3
      exact hne (List.eq_nil_of_length_eq_zero (by omega))

/-- C6 (amended): the Locator's pattern fully matches exactly the strings
of the form `<base><mid>.xml` where `<mid>` is an optional underscore
followed by a possibly empty run of digits — so also a bare underscore
with no digits, and digits with no underscore. -/
theorem sitemap_pattern_exact (s : Str) :
    matchSitemapAt s = some s.length ↔
      ∃ mid, MidOk mid ∧ s = sitemapBase ++ mid ++ xmlTail := by
  have hXl : xmlTail.length = 4 := by decide
  rw [matchSitemapAt_some_iff]
  constructor
  · rintro ⟨mid, rest, hmid, rfl, hlen⟩
    have hrest : rest = [] := by
      apply List.eq_nil_of_length_eq_zero
      simp only [List.length_append, hXl] at hlen
      omega
    subst hrest
    exact ⟨mid, hmid, by simp⟩
  · rintro ⟨mid, hmid, rfl⟩
    refine ⟨mid, [], hmid, by simp, ?_⟩
    simp only [List.length_append, hXl]

/-- C4: the Driver's accumulated list is exactly the concatenation, in the
order the Locator returned the sitemap URLs (processed sequentially), of
each sitemap's result list; within each sitemap's group the order is the
result order of `process_sitemap`, which follows the document order of the
surviving `<loc>` entries. -/
theorem driver_accumulation_order (robots : FetchResult Str)
    (fetch : Str → FetchResult SitemapBody) (res : Str → List (Option Hotel))
    (hr : isSuccessStatus robots.status = true)
    (h : ∀ u ∈ findAllSitemap robots.body, processSitemap (fetch u) = Except.ok (res u)) :
    extractSitemapUrls robots = Except.ok (findAllSitemap robots.body) ∧
    accumulateHotels fetch (findAllSitemap robots.body) =
      Except.ok ((findAllSitemap robots.body).flatMap res) :=
  ⟨extractSitemapUrls_ok robots hr, accumulateHotels_flatMap fetch res _ h⟩

/-- Witness for C4: a robots.txt advertising one sitemap whose document
holds one hotel loc. -/
theorem driver_accumulation_order_witness :
    extractSitemapUrls robotsOneSitemap = Except.ok (findAllSitemap robotsOneSitemap.body) ∧
    accumulateHotels parisFetch (findAllSitemap robotsOneSitemap.body) =
      Except.ok ((findAllSitemap robotsOneSitemap.body).flatMap
        (fun _ => processSitemapLocs [parisUrl])) :=
  driver_accumulation_order robotsOneSitemap parisFetch
    (fun _ => processSitemapLocs [parisUrl]) (by decide) (fun _ _ => rfl)

/-- C5: if any HTTP fetch (robots.txt or any sitemap) returns a
client-error or server-error status, the run terminates with an error —
and the output document exists only when every fetch succeeded and every
sitemap parsed (the file write is the final step of `main`, after the
whole loop, so an erroring run writes nothing). -/
theorem mainRun_error_handling (robots : FetchResult Str)
    (fetch : Str → FetchResult SitemapBody) :
    (((400 ≤ robots.status ∧ robots.status ≤ 599) ∨
        ∃ u ∈ findAllSitemap robots.body,
          400 ≤ (fetch u).status ∧ (fetch u).status ≤ 599) →
      ∃ e, mainRun robots fetch = Except.error e) ∧
    (∀ j, mainRun robots fetch = Except.ok j →
      isSuccessStatus robots.status = true ∧
      ∀ u ∈ findAllSitemap robots.body,
        isSuccessStatus (fetch u).status = true ∧ (fetch u).body.locs?.isSome = true) := by
  constructor
  · intro hbad
    rcases hs : isSuccessStatus robots.status with - | -
    · exact ⟨RunError.httpStatus robots.status, by
        rw [mainRun, extractSitemapUrls, raiseForStatus_error robots hs, errorBind,
          errorBind]⟩
    · rcases hbad with hrob | ⟨u, hu, hcode⟩
      · have : isSuccessStatus robots.status = false := by
          rw [isSuccessStatus]
          simp only [Bool.and_eq_false_iff, decide_eq_false_iff_not]
          omega
        rw [this] at hs
        exact absurd hs (by simp)
      · have hfail : ∃ e, processSitemap (fetch u) = Except.error e := by
          refine ⟨RunError.httpStatus (fetch u).status, processSitemap_error_status _ ?_⟩
          rw [isSuccessStatus]
          simp only [Bool.and_eq_false_iff, decide_eq_false_iff_not]
          omega
        obtain ⟨e, he⟩ := accumulateHotels_error fetch (findAllSitemap robots.body) u hu hfail
        exact ⟨e, by
          rw [mainRun, extractSitemapUrls_ok robots hs, okBind, he, errorBind]⟩
  · intro j hj
    rcases hs : isSuccessStatus robots.status with - | -
    · rw [mainRun, extractSitemapUrls, raiseForStatus_error robots hs, errorBind,
        errorBind] at hj
      exact absurd hj (by simp)
    · refine ⟨rfl, ?_⟩
      rw [mainRun, extractSitemapUrls_ok robots hs, okBind] at hj
      rcases ha : accumulateHotels fetch (findAllSitemap robots.body) with e | l
      · rw [ha, errorBind] at hj
        exact absurd hj (by simp)
      · exact accumulateHotels_ok_inv fetch _ l ha

/-- Witness for C5: a 503 on robots.txt aborts the run. -/
theorem mainRun_error_handling_witness :
    ∃ e, mainRun robotsDown emptyFetch = Except.error e :=
  (mainRun_error_handling robotsDown emptyFetch).1 (Or.inl (by decide))

/-- C7: when the robots.txt body contains no substring matching the
sitemap pattern, the run succeeds and the output document is the empty
JSON array. -/
theorem mainRun_no_sitemaps_empty_array (robots : FetchResult Str)
    (fetch : Str → FetchResult SitemapBody)
    (hr : isSuccessStatus robots.status = true)
    (h0 : findAllSitemap robots.body = []) :
    mainRun robots fetch = Except.ok (Json.arr []) := by
  rw [mainRun, extractSitemapUrls_ok robots hr, okBind, h0]
  rfl

/-- Witness for C7: a robots.txt with no sitemap URLs yields `[]`. -/
theorem mainRun_no_sitemaps_empty_array_witness :
    mainRun robotsNoSitemaps emptyFetch = Except.ok (Json.arr []) :=
  mainRun_no_sitemaps_empty_array robotsNoSitemaps emptyFetch (by decide) (by decide)

/-- C8: serializing any list of N hotel records to JSON the way `main`
does (an array of per-record field mappings) and parsing the JSON back
yields exactly the same N records, same field values, same order. -/
theorem json_round_trip (hs : List Hotel) :
    parseHotelsJson (serializeHotels hs) = some hs := by
  rw [serializeHotels, parseHotelsJson]
  induction hs with
  | nil => rfl
  | cons h rest ih =>
    rw [List.map_cons, parseHotelList,
      show parseHotelJson (Json.obj (hotelAsDict h)) = some h from rfl, ih]
    rfl

end ID90
